import Mathlib

/-!
# fishing_tl: the phishing-risk engine of `back.js`

A shallow embedding of the scoring engine in `src/back.js` and the properties
its specification states.

Modelling conventions.

* A JavaScript string is the list of its UTF-16 code units. The engine only
  compares code units for equality, measures lengths, and looks for the
  ASCII characters `.`, `@` and the decimal digits, so a unit is written as a
  `Char`.
* A JavaScript array is a `List`; `xs[i] = v` is `arraySet`.
* JavaScript numbers that count things (lengths, distances) are `Nat`; scores
  are `Int`.
* Calls into the browser (`chrome.*`, `console.*`, `alert`) are recorded as a
  list of `Effect`s, in call order.
-/

namespace FishingTL

/-- A JavaScript string, as the list of its code units. -/
abbrev JSString := List Char

/-! ## JavaScript built-ins used by the engine -/

/-- The assignment `xs[i] = v` on a JavaScript array: it overwrites an existing
index and otherwise grows the array up to index `i`, the skipped indices being
holes (`hole` stands for `undefined`). -/
def arraySet {β : Type} (hole : β) (xs : List β) (i : Nat) (v : β) : List β :=
  if i < xs.length then xs.set i v
  else xs ++ List.replicate (i - xs.length) hole ++ [v]

/-- The read `matrix[i][j]` of a number matrix. A cell that was never assigned
reads as 0; `getLevenshteinDistance` only reads cells it has assigned, as the
loop invariants `levCell_eq` and `levRow_upTo` show. -/
def matrixGet (matrix : List (List Nat)) (i j : Nat) : Nat :=
  (matrix.getD i []).getD j 0

/-- The assignment `matrix[i][j] = v`. -/
def matrixSet (matrix : List (List Nat)) (i j v : Nat) : List (List Nat) :=
  matrix.set i (arraySet 0 (matrix.getD i []) j v)

/-- The three-argument `Math.min(x, y, z)`. -/
def mathMin3 (x y z : Nat) : Nat := min x (min y z)

/-- The method `s.charAt(i)`: the one-unit string at index `i`, or the empty
string (`none`) when `i` is out of range. -/
def charAt {α : Type} (s : List α) (i : Nat) : Option α := s.get? i

/-- The method `s.split(sep)` for a one-unit separator. -/
def split (sep : Char) : JSString → List JSString
  | [] => [[]]
  | c :: cs =>
    if c = sep then [] :: split sep cs
    else
      match split sep cs with
      | [] => [[c]]
      | l :: ls => (c :: l) :: ls

/-- The expression `s.split('.')[0]`. -/
def firstLabel (s : JSString) : JSString := (split '.' s).headD []

/-- The method `s.includes(t)`: `t` occurs in `s` as a contiguous substring. -/
def includes (s t : JSString) : Bool := decide (t <:+: s)

/-- The method `s.endsWith(t)`. -/
def endsWith (s t : JSString) : Bool := t.isSuffixOf s

/-- The method `s.toLowerCase()`, on the ASCII range (a URL host name is
ASCII). -/
def toLowerCase (s : JSString) : JSString := s.map Char.toLower

/-- The call `s.replace(/^www\./, '')`: one leading `www.` is removed. -/
def stripWww (s : JSString) : JSString :=
  match s with
  | 'w' :: 'w' :: 'w' :: '.' :: rest => rest
  | _ => s

/-! ## `getLevenshteinDistance` -/

/-- The body of the inner loop of `getLevenshteinDistance`, for row `i` and
column `j`. -/
def levCell {α : Type} [DecidableEq α] (a b : List α) (i : Nat)
    (matrix : List (List Nat)) (j : Nat) : List (List Nat) :=
  if charAt b (i - 1) = charAt a (j - 1) then
    matrixSet matrix i j (matrixGet matrix (i - 1) (j - 1))
  else
    matrixSet matrix i j
      (mathMin3 (matrixGet matrix (i - 1) (j - 1) + 1)
        (matrixGet matrix i (j - 1) + 1) (matrixGet matrix (i - 1) j + 1))

/-- The body of the outer loop: `for (let j = 1; j <= a.length; j++)`. -/
def levRow {α : Type} [DecidableEq α] (a b : List α)
    (matrix : List (List Nat)) (i : Nat) : List (List Nat) :=
  (List.range' 1 a.length).foldl (levCell a b i) matrix

/-- The function `getLevenshteinDistance(a, b)` of `back.js`. -/
def getLevenshteinDistance {α : Type} [DecidableEq α] (a b : List α) : Nat :=
  if a.length = 0 then b.length
  else if b.length = 0 then a.length
  else
    let matrix : List (List Nat) := []
    -- for (let i = 0; i <= b.length; i++) matrix[i] = [i];
    let matrix := (List.range (b.length + 1)).foldl
      (fun m i => arraySet [] m i [i]) matrix
    -- for (let j = 0; j <= a.length; j++) matrix[0][j] = j;
    let matrix := (List.range (a.length + 1)).foldl
      (fun m j => matrixSet m 0 j j) matrix
    -- for (let i = 1; i <= b.length; i++) ...
    let matrix := (List.range' 1 b.length).foldl (levRow a b) matrix
    matrixGet matrix b.length a.length

/-! ## Edit distance, as the specification words it -/

/-- One single-character edit of a string: an insertion, a deletion or a
substitution, at any position. -/
inductive EditStep {α : Type} : List α → List α → Prop
  | insert (p s : List α) (c : α) : EditStep (p ++ s) (p ++ c :: s)
  | delete (p s : List α) (c : α) : EditStep (p ++ c :: s) (p ++ s)
  | substitute (p s : List α) (c d : α) : EditStep (p ++ c :: s) (p ++ d :: s)

/-- The string `a` is transformed into `b` by exactly `n` single-character
edits. -/
inductive EditsTo {α : Type} : Nat → List α → List α → Prop
  | done (a : List α) : EditsTo 0 a a
  | step {n : Nat} {a b c : List α} :
      EditStep a b → EditsTo n b c → EditsTo (n + 1) a c

/-- The number `d` is the Levenshtein distance of `a` and `b`: some sequence of
`d` single-character edits transforms `a` into `b`, and no shorter one does. -/
def IsLevenshteinDistance {α : Type} (a b : List α) (d : Nat) : Prop :=
  EditsTo d a b ∧ ∀ n, EditsTo n a b → d ≤ n

/-- The recurrence that the matrix of `getLevenshteinDistance` tabulates: the
first string is the part of `a` already covered by the columns and the second
the part of `b` covered by the rows, both read from their last unit
backwards. Used only in proofs. -/
def lev {α : Type} [DecidableEq α] : List α → List α → Nat
  | [], ys => ys.length
  | _ :: xs, [] => xs.length + 1
  | x :: xs, y :: ys =>
    if y = x then lev xs ys
    else mathMin3 (lev xs ys + 1) (lev xs (y :: ys) + 1) (lev (x :: xs) ys + 1)
termination_by a b => a.length + b.length


/-- The value the matrix of `getLevenshteinDistance` holds at row `i` and
column `j` once it is filled: the recurrence on the first `j` units of `a` and
the first `i` units of `b`. Used only in proofs. -/
def levTable {α : Type} [DecidableEq α] (a b : List α) (i j : Nat) : Nat :=
  lev (a.take j).reverse (b.take i).reverse

/-- The matrix of `getLevenshteinDistance` after the rows up to `i` are filled:
these rows are complete and every later row `k` is still `[k]`. Used only in
proofs. -/
def levMatrix {α : Type} [DecidableEq α] (a b : List α) (i : Nat) : List (List Nat) :=
  (List.range (i + 1)).map (fun k => (List.range (a.length + 1)).map (levTable a b k))
    ++ (List.range' (i + 1) (b.length - i)).map (fun k => [k])


/-! ## Regular expressions -/

/-- The fragment of JavaScript regular expressions that `back.js` uses inside
an anchored pattern `/^...$/`. -/
inductive Regex
  /-- The class `\d`. -/
  | digit
  /-- One literal unit, such as `\.`. -/
  | unit (c : Char)
  /-- Concatenation. -/
  | seq (r s : Regex)
  /-- The bounded quantifier `r{lo,hi}`. -/
  | times (r : Regex) (lo hi : Nat)

/-- The quantifier `{lo,hi}` over a matcher `step`: every remainder of the
input after between `lo` and `hi` consecutive matches, longest first. -/
def matchTimes (step : JSString → List JSString) : Nat → Nat → JSString → List JSString
  | lo, 0, cs => if lo = 0 then [cs] else []
  | lo, hi + 1, cs =>
    (step cs).flatMap (matchTimes step (lo - 1) hi) ++ (if lo = 0 then [cs] else [])

/-- A backtracking matcher: every remainder of the input after a match of `r`
at its start, in the order in which the engine tries them. -/
def Regex.matchEnds : Regex → JSString → List JSString
  | .digit, [] => []
  | .digit, c :: cs => if c.isDigit then [cs] else []
  | .unit _, [] => []
  | .unit d, c :: cs => if c = d then [cs] else []
  | .seq r s, cs => (r.matchEnds cs).flatMap (fun rest => s.matchEnds rest)
  | .times r lo hi, cs => matchTimes (fun rest => r.matchEnds rest) lo hi cs

/-- The call `/^r$/.test(s)`: some match of `r` consumes the whole of `s`. -/
def Regex.testAnchored (r : Regex) (s : JSString) : Bool :=
  (r.matchEnds s).any (fun rest => rest.isEmpty)

/-- The pattern `\d{1,3}\.\d{1,3}\.\d{1,3}\.\d{1,3}` of `checkUrlSyntax`. -/
def ipPattern : Regex :=
  .seq (.times .digit 1 3) (.seq (.unit '.')
    (.seq (.times .digit 1 3) (.seq (.unit '.')
      (.seq (.times .digit 1 3) (.seq (.unit '.') (.times .digit 1 3))))))

/-! ## The checks of `back.js` -/

/-- The fields of a parsed `URL` object that the engine reads. -/
structure URL where
  hostname : JSString
  username : JSString
  password : JSString
  href : JSString
  deriving DecidableEq

/-- The object `{ score, reasons }` that a check returns. -/
structure CheckResult where
  score : Int
  reasons : List JSString
  deriving DecidableEq

/-- The object `{ isSafe, score, reason }` that `checkWhitelist` returns;
`reason` is `none` for `null`. -/
structure WhitelistResult where
  isSafe : Bool
  score : Int
  reason : Option JSString
  deriving DecidableEq

/-- A string used as a condition is true when it is not empty. -/
def truthy (s : JSString) : Bool := !s.isEmpty

/-- The function `checkWhitelist(domain)`; the global `TRUSTED_DOMAINS` is a
parameter. -/
def checkWhitelist (TRUSTED_DOMAINS : List JSString) (domain : JSString) : WhitelistResult :=
  if TRUSTED_DOMAINS.contains domain then
    { isSafe := true, score := 0, reason := some "Trusted Source".toList }
  else
    { isSafe := false, score := 0, reason := none }

/-- The function `checkUrlSyntax(urlObj, domain)`. -/
def checkUrlSyntax (urlObj : URL) (domain : JSString) : CheckResult :=
  let score : Int := 0
  let reasons : List JSString := []
  let (score, reasons) :=
    if ipPattern.testAnchored domain then
      (score + 50, reasons ++ ["Используется IP вместо домена".toList])
    else (score, reasons)
  let (score, reasons) :=
    if truthy urlObj.username || truthy urlObj.password || includes urlObj.href ['@'] then
      (score + 40, reasons ++ ["Подозрительный символ @ в адресе".toList])
    else (score, reasons)
  let (score, reasons) :=
    if (split '.' domain).length > 4 then
      (score + 20, reasons ++ ["Слишком много поддоменов".toList])
    else (score, reasons)
  let (score, reasons) :=
    if endsWith domain ".xyz".toList || endsWith domain ".tk".toList
        || endsWith domain ".top".toList then
      (score + 15, reasons ++ ["Подозрительная доменная зона".toList])
    else (score, reasons)
  { score := score, reasons := reasons }

/-- The reason that the typosquatting rule of `checkImpersonation` pushes. -/
def typosquatReason (trustedName : JSString) : JSString :=
  "Попытка имитации бренда ".toList ++ trustedName ++ " (Тайпосквоттинг)".toList

/-- The reason that the embedding rule of `checkImpersonation` pushes. -/
def embeddingReason (trustedName : JSString) : JSString :=
  "Имя бренда ".toList ++ trustedName ++ " в постороннем домене".toList

/-- The loop `for (let brand of TRUSTED_DOMAINS)` of `checkImpersonation`,
from the brands still to visit and the current `score` and `reasons`; a
`break` returns the state, a `continue` goes on with the rest. -/
def impersonationLoop (domain domainBody : JSString) :
    List JSString → Int × List JSString → Int × List JSString
  | [], state => state
  | brand :: rest, (score, reasons) =>
    let trustedName := firstLabel brand
    if trustedName.length < 4 then impersonationLoop domain domainBody rest (score, reasons)
    else
      let dist := getLevenshteinDistance domainBody trustedName
      if dist = 1 then
        (score + 80, reasons ++ [typosquatReason trustedName])
      else if includes domain trustedName && domain ≠ brand then
        (score + 60, reasons ++ [embeddingReason trustedName])
      else impersonationLoop domain domainBody rest (score, reasons)

/-- The function `checkImpersonation(domain)`; the global `TRUSTED_DOMAINS` is
a parameter. -/
def checkImpersonation (TRUSTED_DOMAINS : List JSString) (domain : JSString) : CheckResult :=
  let score : Int := 0
  let reasons : List JSString := []
  let domainBody := firstLabel domain
  let (score, reasons) := impersonationLoop domain domainBody TRUSTED_DOMAINS (score, reasons)
  { score := score, reasons := reasons }

/-! ## Verdicts and the pipeline -/

/-- The status strings passed to `updateIcon`. -/
inductive Status
  | SAFE | DANGER | WARNING | UNKNOWN
  deriving DecidableEq, Repr

/-- The function injected into the page by `chrome.scripting.executeScript`. -/
inductive Script
  /-- The function `analyzePageContentDOM`. -/
  | analyzePageContentDOM
  /-- The arrow function of `finalizeVerdict` that alerts the reasons and draws
  a red border, with its argument. -/
  | alertReasons (reasons : List JSString)
  deriving DecidableEq

/-- A call that leaves the engine, recorded in call order. -/
inductive Effect
  /-- The call `updateIcon(status, tabId)`, which sets the badge of the tab. -/
  | updateIcon (status : Status) (tabId : Nat)
  /-- The call `console.log` of `finalizeVerdict`, with the score and report. -/
  | consoleLog (score : Int) (report : List JSString)
  /-- The call `console.error` of the `catch` block. -/
  | consoleError
  /-- The call `chrome.scripting.executeScript` on a tab. -/
  | executeScript (tabId : Nat) (script : Script)
  deriving DecidableEq

/-- The function `finalizeVerdict(tabId, score, report)`. -/
def finalizeVerdict (tabId : Nat) (score : Int) (report : List JSString) : List Effect :=
  Effect.consoleLog score report ::
    (if score ≥ 50 then
      [Effect.updateIcon Status.DANGER tabId,
        Effect.executeScript tabId (Script.alertReasons report)]
    else if score ≥ 20 then
      [Effect.updateIcon Status.WARNING tabId]
    else
      [Effect.updateIcon Status.UNKNOWN tabId])

/-- The object that `analyzePageContentDOM` returns. -/
structure DomResult where
  hasPasswordInput : Bool
  pageTitle : JSString
  deriving DecidableEq

/-- One entry of the array handed to the callback of `executeScript`; `result`
is `none` when the entry carries no value. -/
structure InjectionResult where
  result : Option DomResult
  deriving DecidableEq

/-- The reason pushed when the page has a password input. -/
def passwordReason : JSString := "Запрос пароля на непроверенном сайте".toList

/-- The callback that `performSecurityCheck` hands to `executeScript`, closed
over `tabId`, `totalScore` and `report`. The argument `results` is `none` when
the browser passes `undefined`. -/
def pageContextCallback (tabId : Nat) (totalScore : Int) (report : List JSString)
    (results : Option (List InjectionResult)) : List Effect :=
  match results with
  | some (first :: _) =>
    match first.result with
    | some domResult =>
      let (totalScore, report) :=
        if domResult.hasPasswordInput then
          (totalScore + 20, report ++ [passwordReason])
        else (totalScore, report)
      finalizeVerdict tabId totalScore report
    | none => []
  | _ => []

/-- The function `performSecurityCheck(tabId, urlString)`. The parser
`new URL(urlString)` is outside the engine: `parsed` is its result, `none`
when it throws. The argument `results` is what the browser later passes to the
callback of `executeScript`. The global `TRUSTED_DOMAINS` is a parameter. -/
def performSecurityCheck (TRUSTED_DOMAINS : List JSString) (tabId : Nat)
    (parsed : Option URL) (results : Option (List InjectionResult)) : List Effect :=
  match parsed with
  | none => [Effect.consoleError]
  | some url =>
    let domain := toLowerCase (stripWww url.hostname)
    let whitelistCheck := checkWhitelist TRUSTED_DOMAINS domain
    if whitelistCheck.isSafe then
      [Effect.updateIcon Status.SAFE tabId]
    else
      let totalScore : Int := 0
      let report : List JSString := []
      let urlCheck := checkUrlSyntax url domain
      let totalScore := totalScore + urlCheck.score
      let report := report ++ urlCheck.reasons
      let impersonationCheck := checkImpersonation TRUSTED_DOMAINS domain
      let totalScore := totalScore + impersonationCheck.score
      let report := report ++ impersonationCheck.reasons
      Effect.executeScript tabId Script.analyzePageContentDOM ::
        pageContextCallback tabId totalScore report results


/-! ## Vocabulary of the specification -/

/-- The verdicts a run emits: the statuses of its `updateIcon` calls, in
order. -/
def verdicts (trace : List Effect) : List Status :=
  trace.filterMap fun e =>
    match e with
    | Effect.updateIcon status _ => some status
    | _ => none

/-- The page-context result the callback can use, following its guard
`results && results[0] && results[0].result`; `none` when the collector failed
or returned nothing. -/
def usableResult : Option (List InjectionResult) → Option DomResult
  | some (first :: _) => first.result
  | _ => none

/-- The brand triggers the typosquat or the embedding rule for the host: its
first label has at least 4 units and either the host's first label is at edit
distance exactly 1 from it, or the host contains it and is not the brand's
full domain. -/
def brandTriggers (domain brand : JSString) : Bool :=
  decide (4 ≤ (firstLabel brand).length) &&
    (decide (getLevenshteinDistance (firstLabel domain) (firstLabel brand) = 1) ||
      (includes domain (firstLabel brand) && decide (domain ≠ brand)))


/-- A group of 1 to 3 decimal digits. -/
def IsDigitGroup (g : JSString) : Prop :=
  1 ≤ g.length ∧ g.length ≤ 3 ∧ ∀ c ∈ g, c.isDigit = true

/-- The host is four dot-separated groups of 1 to 3 decimal digits. -/
def IsDottedQuad (s : JSString) : Prop :=
  ∃ g₁ g₂ g₃ g₄, IsDigitGroup g₁ ∧ IsDigitGroup g₂ ∧ IsDigitGroup g₃ ∧ IsDigitGroup g₄
    ∧ s = g₁ ++ '.' :: (g₂ ++ '.' :: (g₃ ++ '.' :: g₄))

/-- The score a rule of weight `w` adds: `w` if the rule fires, else 0. -/
def ruleScore (fires : Bool) (w : Int) : Int := if fires then w else 0

/-- The reasons a rule adds: its reason if the rule fires, else none. -/
def ruleReasons (fires : Bool) (reason : JSString) : List JSString :=
  if fires then [reason] else []

end FishingTL

/-! # Theorems -/

namespace FishingTL

section Recurrence
variable {α : Type} [DecidableEq α]

theorem lev_nil_left (b : List α) : lev [] b = b.length := by
  simp [lev]

theorem lev_nil_right (a : List α) : lev a [] = a.length := by
  cases a <;> simp [lev]

theorem lev_cons_cons (x y : α) (xs ys : List α) :
    lev (x :: xs) (y :: ys) =
      if y = x then lev xs ys
      else mathMin3 (lev xs ys + 1) (lev xs (y :: ys) + 1) (lev (x :: xs) ys + 1) := by
  rw [lev]

theorem lev_comm (a b : List α) : lev a b = lev b a := by
  induction a, b using lev.induct with
  | case1 ys => simp [lev_nil_left, lev_nil_right]
  | case2 x xs => simp [lev_nil_left, lev_nil_right]
  | case3 xs y ys ih =>
    simp [lev_cons_cons, ih]
  | case4 x xs y ys h ih1 ih2 ih3 =>
    have h' : ¬ x = y := fun e => h e.symm
    simp only [lev_cons_cons, if_neg h, if_neg h', ih1, ih2, ih3, mathMin3]
    omega

end Recurrence

section Lipschitz
variable {α : Type} [DecidableEq α]

/-- Putting a unit in front of the first string changes the value by at most
one, in both directions. -/
theorem lev_cons_left (n : Nat) : ∀ (a b : List α), a.length + b.length ≤ n →
    ∀ c : α, lev a b ≤ lev (c :: a) b + 1 ∧ lev (c :: a) b ≤ lev a b + 1 := by
  induction n with
  | zero =>
    intro a b h c
    have ha : a = [] := List.length_eq_zero.mp (by omega)
    have hb : b = [] := List.length_eq_zero.mp (by omega)
    subst ha; subst hb
    simp [lev_nil_right]
  | succ n ih =>
    intro a b h c
    cases b with
    | nil => simp only [lev_nil_right, List.length_cons]; omega
    | cons y ys =>
      have hlen : a.length + ys.length ≤ n := by simp at h; omega
      -- the same bounds with the roles of the two strings exchanged
      have h1 := ih a ys hlen c
      have h2 := ih ys a (by omega) y
      rw [lev_comm ys a, lev_comm (y :: ys) a] at h2
      rw [lev_cons_cons]
      by_cases hyc : y = c
      · simp only [if_pos hyc]
        omega
      · simp only [if_neg hyc, mathMin3]
        omega

theorem lev_le_cons (c : α) (a b : List α) : lev a b ≤ lev (c :: a) b + 1 :=
  (lev_cons_left _ a b le_rfl c).1

theorem lev_cons_le (c : α) (a b : List α) : lev (c :: a) b ≤ lev a b + 1 :=
  (lev_cons_left _ a b le_rfl c).2

theorem lev_subst_le (c d : α) (a b : List α) :
    lev (c :: a) b ≤ lev (d :: a) b + 1 := by
  induction b with
  | nil => simp [lev_nil_right]
  | cons y ys ih =>
    have h1 := lev_le_cons c a ys
    have h2 := lev_cons_le c a (y :: ys)
    have h3 : lev (c :: a) (y :: ys) ≤ lev a ys + 1 := by
      rw [lev_cons_cons]; split <;> simp [mathMin3]
    have h4 : lev (c :: a) (y :: ys) ≤ lev (c :: a) ys + 1 := by
      rw [lev_cons_cons]; split
      · omega
      · simp [mathMin3]
    rw [lev_cons_cons d]
    by_cases hyd : y = d
    · simp only [if_pos hyd]; omega
    · simp only [if_neg hyd, mathMin3]; omega

theorem lev_cons_congr (e : α) (x x' : List α)
    (h : ∀ b, lev x b ≤ lev x' b + 1) (b : List α) :
    lev (e :: x) b ≤ lev (e :: x') b + 1 := by
  induction b with
  | nil => have := h []; simp [lev_nil_right] at this ⊢; omega
  | cons y ys ih =>
    have h1 := h ys
    have h2 := h (y :: ys)
    rw [lev_cons_cons, lev_cons_cons]
    by_cases hye : y = e
    · simp only [if_pos hye]; omega
    · simp only [if_neg hye, mathMin3]; omega

theorem lev_append_congr (p x x' : List α)
    (h : ∀ b, lev x b ≤ lev x' b + 1) (b : List α) :
    lev (p ++ x) b ≤ lev (p ++ x') b + 1 := by
  induction p generalizing b with
  | nil => simpa using h b
  | cons e p ih => exact lev_cons_congr e _ _ ih b

theorem lev_editStep {a a' : List α} (h : EditStep a a') (b : List α) :
    lev a b ≤ lev a' b + 1 := by
  cases h with
  | insert p s c => exact lev_append_congr p _ _ (lev_le_cons c s) b
  | delete p s c => exact lev_append_congr p _ _ (lev_cons_le c s) b
  | substitute p s c d => exact lev_append_congr p _ _ (lev_subst_le c d s) b

theorem lev_self (a : List α) : lev a a = 0 := by
  induction a with
  | nil => simp [lev_nil_left]
  | cons x xs ih => simp [lev_cons_cons, ih]

theorem lev_le_of_editsTo {n : Nat} {a b : List α} (h : EditsTo n a b) :
    lev a b ≤ n := by
  induction h with
  | done a => simp [lev_self]
  | @step n a b c hs _ ih => have := lev_editStep hs c; omega
end Lipschitz

section Scripts
variable {α : Type}

theorem editStep_cons (e : α) {a b : List α} (h : EditStep a b) :
    EditStep (e :: a) (e :: b) := by
  cases h with
  | insert p s c => exact EditStep.insert (e :: p) s c
  | delete p s c => exact EditStep.delete (e :: p) s c
  | substitute p s c d => exact EditStep.substitute (e :: p) s c d

theorem editStep_reverse {a b : List α} (h : EditStep a b) :
    EditStep a.reverse b.reverse := by
  cases h with
  | insert p s c =>
    have := EditStep.insert s.reverse p.reverse c
    simpa using this
  | delete p s c =>
    have := EditStep.delete s.reverse p.reverse c
    simpa using this
  | substitute p s c d =>
    have := EditStep.substitute s.reverse p.reverse c d
    simpa using this

theorem editsTo_cons (e : α) {n : Nat} {a b : List α} (h : EditsTo n a b) :
    EditsTo n (e :: a) (e :: b) := by
  induction h with
  | done a => exact EditsTo.done _
  | step hs _ ih => exact EditsTo.step (editStep_cons e hs) ih

theorem editsTo_reverse {n : Nat} {a b : List α} (h : EditsTo n a b) :
    EditsTo n a.reverse b.reverse := by
  induction h with
  | done a => exact EditsTo.done _
  | step hs _ ih => exact EditsTo.step (editStep_reverse hs) ih

theorem editsTo_reverse_iff {n : Nat} {a b : List α} :
    EditsTo n a.reverse b.reverse ↔ EditsTo n a b :=
  ⟨fun h => by simpa using editsTo_reverse h, editsTo_reverse⟩

theorem editsTo_of_nil (b : List α) : EditsTo b.length [] b := by
  induction b with
  | nil => exact EditsTo.done _
  | cons y ys ih => exact EditsTo.step (EditStep.insert [] [] y) (editsTo_cons y ih)

theorem editsTo_nil (a : List α) : EditsTo a.length a [] := by
  induction a with
  | nil => exact EditsTo.done _
  | cons x xs ih => exact EditsTo.step (EditStep.delete [] xs x) ih

theorem editsTo_lev [DecidableEq α] (a b : List α) : EditsTo (lev a b) a b := by
  induction a, b using lev.induct with
  | case1 ys => rw [lev_nil_left]; exact editsTo_of_nil ys
  | case2 x xs => rw [lev_nil_right]; exact editsTo_nil (x :: xs)
  | case3 xs y ys ih =>
    rw [lev_cons_cons, if_pos rfl]; exact editsTo_cons y ih
  | case4 x xs y ys h ih1 ih2 ih3 =>
    rw [lev_cons_cons, if_neg h]
    have hsub : EditsTo (lev xs ys + 1) (x :: xs) (y :: ys) :=
      EditsTo.step (EditStep.substitute [] xs x y) (editsTo_cons y ih1)
    have hdel : EditsTo (lev xs (y :: ys) + 1) (x :: xs) (y :: ys) :=
      EditsTo.step (EditStep.delete [] xs x) ih2
    have hins : EditsTo (lev (x :: xs) ys + 1) (x :: xs) (y :: ys) :=
      EditsTo.step (EditStep.insert [] (x :: xs) y) (editsTo_cons y ih3)
    unfold mathMin3
    rcases min_choice (lev xs ys + 1)
        (min (lev xs (y :: ys) + 1) (lev (x :: xs) ys + 1)) with h1 | h1
    · rw [h1]; exact hsub
    · rw [h1]
      rcases min_choice (lev xs (y :: ys) + 1) (lev (x :: xs) ys + 1) with h2 | h2
      · rw [h2]; exact hdel
      · rw [h2]; exact hins

/-- The recurrence computes the Levenshtein distance. -/
theorem lev_isLevenshteinDistance [DecidableEq α] (a b : List α) :
    IsLevenshteinDistance a b (lev a b) :=
  ⟨editsTo_lev a b, fun _ h => lev_le_of_editsTo h⟩

theorem lev_reverse_isLevenshteinDistance [DecidableEq α] (a b : List α) :
    IsLevenshteinDistance a b (lev a.reverse b.reverse) :=
  ⟨editsTo_reverse_iff.mp (editsTo_lev _ _),
    fun _ h => lev_le_of_editsTo (editsTo_reverse_iff.mpr h)⟩

theorem isLevenshteinDistance_unique {a b : List α} {d e : Nat}
    (hd : IsLevenshteinDistance a b d) (he : IsLevenshteinDistance a b e) : d = e :=
  le_antisymm (hd.2 e he.1) (he.2 d hd.1)

end Scripts

section Arrays
variable {β : Type}

theorem arraySet_length (hole : β) (xs : List β) (v : β) :
    arraySet hole xs xs.length v = xs ++ [v] := by
  simp [arraySet]

theorem getD_append_cons (l₁ l₂ : List β) (x d : β) :
    (l₁ ++ x :: l₂).getD l₁.length d = x := by
  induction l₁ with
  | nil => rfl
  | cons z l₁ ih => simpa using ih

theorem set_append_cons (l₁ l₂ : List β) (x y : β) :
    (l₁ ++ x :: l₂).set l₁.length y = l₁ ++ y :: l₂ := by
  induction l₁ with
  | nil => rfl
  | cons z l₁ ih => simp [ih]

theorem getD_map_range (f : Nat → β) (k j : Nat) (d : β) (h : j < k) :
    ((List.range k).map f).getD j d = f j := by
  simp [List.getD_eq_getElem?_getD, h]

theorem matrixGet_append_cons (l₁ l₂ : List (List Nat)) (row : List Nat) (j : Nat) :
    matrixGet (l₁ ++ row :: l₂) l₁.length j = row.getD j 0 := by
  unfold matrixGet
  rw [getD_append_cons]

theorem matrixGet_append_left (l₁ l₂ : List (List Nat)) (i j : Nat) (h : i < l₁.length) :
    matrixGet (l₁ ++ l₂) i j = (l₁.getD i []).getD j 0 := by
  simp [matrixGet, List.getD_eq_getElem?_getD, List.getElem?_append_left h]

theorem matrixSet_append_cons (l₁ l₂ : List (List Nat)) (row : List Nat) (v : Nat) :
    matrixSet (l₁ ++ row :: l₂) l₁.length row.length v = l₁ ++ (row ++ [v]) :: l₂ := by
  unfold matrixSet
  rw [getD_append_cons, arraySet_length, set_append_cons]

theorem take_succ_reverse (l : List β) (k : Nat) (x : β) (h : l.get? k = some x) :
    (l.take (k + 1)).reverse = x :: (l.take k).reverse := by
  rw [List.take_succ]
  simp only [List.get?_eq_getElem?] at h
  simp [h]

end Arrays

section Table
variable {α : Type} [DecidableEq α]

theorem levTable_row_zero (a b : List α) (j : Nat) (h : j ≤ a.length) :
    levTable a b 0 j = j := by
  simp [levTable, lev_nil_right, h]

theorem levTable_col_zero (a b : List α) (i : Nat) (h : i ≤ b.length) :
    levTable a b i 0 = i := by
  simp [levTable, lev_nil_left, h]

theorem levTable_succ (a b : List α) (i j : Nat) (hi : i < b.length) (hj : j < a.length) :
    levTable a b (i + 1) (j + 1) =
      if charAt b i = charAt a j then levTable a b i j
      else mathMin3 (levTable a b i j + 1) (levTable a b (i + 1) j + 1)
        (levTable a b i (j + 1) + 1) := by
  have ha : a.get? j = some (a.get ⟨j, hj⟩) := List.get?_eq_get hj
  have hb : b.get? i = some (b.get ⟨i, hi⟩) := List.get?_eq_get hi
  unfold levTable charAt
  rw [take_succ_reverse a j _ ha, take_succ_reverse b i _ hb, lev_cons_cons, ha, hb]
  simp only [Option.some.injEq]

end Table

section Loops
variable {α : Type} [DecidableEq α]

/-- The first loop, `matrix[i] = [i]` for `i` below `k`, builds the rows
`[0], [1], ...`. -/
theorem initRows_eq (k : Nat) :
    (List.range k).foldl (fun m i => arraySet ([] : List Nat) m i [i]) [] =
      (List.range k).map (fun i => [i]) := by
  induction k with
  | zero => rfl
  | succ k ih =>
    rw [List.range_succ, List.foldl_append, ih, List.map_append]
    have h := arraySet_length ([] : List Nat) ((List.range k).map (fun i => [i])) [k]
    simp only [List.length_map, List.length_range] at h
    simp only [List.foldl_cons, List.foldl_nil, List.map_cons, List.map_nil]
    exact h

/-- The second loop, `matrix[0][j] = j` for `j` up to `k`, turns row `0` into
`[0, 1, ..., k]`. -/
theorem initRowZero_eq (rest : List (List Nat)) (k : Nat) :
    (List.range (k + 1)).foldl (fun m j => matrixSet m 0 j j) ([0] :: rest) =
      List.range (k + 1) :: rest := by
  induction k with
  | zero => rfl
  | succ k ih =>
    rw [List.range_succ, List.foldl_append, ih]
    have h := matrixSet_append_cons [] rest (List.range (k + 1)) (k + 1)
    simp only [List.length_range, List.nil_append, List.length_nil] at h
    simp only [List.foldl_cons, List.foldl_nil]
    rw [h, ← List.range_succ]

end Loops

section Rows
variable {α : Type} [DecidableEq α]

theorem matrixGet_at (pre post : List (List Nat)) (row : List Nat) (i j : Nat)
    (h : pre.length = i) : matrixGet (pre ++ row :: post) i j = row.getD j 0 := by
  subst h; exact matrixGet_append_cons pre post row j

theorem matrixSet_at (pre post : List (List Nat)) (row : List Nat) (i j v : Nat)
    (hi : pre.length = i) (hj : row.length = j) :
    matrixSet (pre ++ row :: post) i j v = pre ++ (row ++ [v]) :: post := by
  subst hi; subst hj; exact matrixSet_append_cons pre post row v

/-- One pass of the inner loop over the cell `(i + 1, k + 1)`, on a matrix whose
row `i` is complete and whose row `i + 1` is filled up to column `k`. -/
theorem levCell_eq (a b : List α) (i k : Nat) (hi : i < b.length) (hk : k < a.length)
    (pre post : List (List Nat)) (hpre : pre.length = i + 1)
    (hrow : pre.getD i [] = (List.range (a.length + 1)).map (levTable a b i)) :
    levCell a b (i + 1)
        (pre ++ (List.range (k + 1)).map (levTable a b (i + 1)) :: post) (k + 1) =
      pre ++ (List.range (k + 2)).map (levTable a b (i + 1)) :: post := by
  have g1 : ∀ j, j ≤ a.length →
      matrixGet (pre ++ (List.range (k + 1)).map (levTable a b (i + 1)) :: post) i j =
        levTable a b i j := by
    intro j hj
    rw [matrixGet_append_left _ _ _ _ (by omega), hrow]
    exact getD_map_range _ _ _ _ (by omega)
  have g2 : matrixGet (pre ++ (List.range (k + 1)).map (levTable a b (i + 1)) :: post)
      (i + 1) k = levTable a b (i + 1) k := by
    rw [matrixGet_at _ _ _ _ _ hpre]
    exact getD_map_range _ _ _ _ (by omega)
  have hset : ∀ v, matrixSet
      (pre ++ (List.range (k + 1)).map (levTable a b (i + 1)) :: post) (i + 1) (k + 1) v =
        pre ++ ((List.range (k + 1)).map (levTable a b (i + 1)) ++ [v]) :: post :=
    fun v => matrixSet_at _ _ _ _ _ _ hpre (by simp)
  have hlast : (List.range (k + 2)).map (levTable a b (i + 1)) =
      (List.range (k + 1)).map (levTable a b (i + 1)) ++ [levTable a b (i + 1) (k + 1)] := by
    rw [List.range_succ, List.map_append]; rfl
  unfold levCell
  simp only [Nat.add_sub_cancel]
  rw [g1 k (by omega), g1 (k + 1) (by omega), g2, hset, hset, hlast,
    levTable_succ a b i k hi hk]
  split <;> rfl

/-- The inner loop for row `i + 1`, run over the columns `1, ..., k`. -/
theorem levRow_upTo (a b : List α) (i : Nat) (hi : i < b.length)
    (pre post : List (List Nat)) (hpre : pre.length = i + 1)
    (hrow : pre.getD i [] = (List.range (a.length + 1)).map (levTable a b i))
    (k : Nat) (hk : k ≤ a.length) :
    (List.range' 1 k).foldl (levCell a b (i + 1)) (pre ++ [i + 1] :: post) =
      pre ++ (List.range (k + 1)).map (levTable a b (i + 1)) :: post := by
  induction k with
  | zero =>
    simp [List.range_succ, levTable_col_zero a b (i + 1) (by omega)]
  | succ k ih =>
    rw [List.range'_concat, List.foldl_append, ih (by omega)]
    simp only [List.foldl_cons, List.foldl_nil, Nat.one_mul, Nat.add_comm 1 k]
    exact levCell_eq a b i k hi (by omega) pre post hpre hrow

end Rows

section Matrix
variable {α : Type} [DecidableEq α]

theorem levMatrix_split (a b : List α) (i : Nat) (hi : i < b.length) :
    levMatrix a b i =
      (List.range (i + 1)).map (fun k => (List.range (a.length + 1)).map (levTable a b k))
        ++ [i + 1] :: (List.range' (i + 2) (b.length - (i + 1))).map (fun k => [k]) := by
  unfold levMatrix
  have h : b.length - i = (b.length - (i + 1)) + 1 := by omega
  rw [h, List.range'_succ]
  rfl

theorem levMatrix_succ (a b : List α) (i : Nat) :
    levMatrix a b (i + 1) =
      (List.range (i + 1)).map (fun k => (List.range (a.length + 1)).map (levTable a b k))
        ++ (List.range (a.length + 1)).map (levTable a b (i + 1))
          :: (List.range' (i + 2) (b.length - (i + 1))).map (fun k => [k]) := by
  unfold levMatrix
  rw [List.range_succ (i + 1), List.map_append]
  simp

/-- The outer loop body for row `i + 1` takes the matrix from its state after
row `i` to its state after row `i + 1`. -/
theorem levRow_eq (a b : List α) (i : Nat) (hi : i < b.length) :
    levRow a b (levMatrix a b i) (i + 1) = levMatrix a b (i + 1) := by
  rw [levMatrix_split a b i hi, levMatrix_succ]
  unfold levRow
  apply levRow_upTo a b i hi _ _ (by simp) _ a.length le_rfl
  exact getD_map_range _ _ _ _ (by omega)

theorem levLoop_eq (a b : List α) (k : Nat) (hk : k ≤ b.length) :
    (List.range' 1 k).foldl (levRow a b) (levMatrix a b 0) = levMatrix a b k := by
  induction k with
  | zero => rfl
  | succ k ih =>
    rw [List.range'_concat, List.foldl_append, ih (by omega)]
    simp only [List.foldl_cons, List.foldl_nil, Nat.one_mul, Nat.add_comm 1 k]
    exact levRow_eq a b k (by omega)

theorem levMatrix_zero (a b : List α) :
    levMatrix a b 0 =
      List.range (a.length + 1) :: (List.range' 1 b.length).map (fun k => [k]) := by
  unfold levMatrix
  have h : (List.range (a.length + 1)).map (levTable a b 0) = List.range (a.length + 1) := by
    conv_rhs => rw [← List.map_id (List.range (a.length + 1))]
    apply List.map_congr_left
    intro j hj
    rw [List.mem_range] at hj
    exact levTable_row_zero a b j (by omega)
  have h1 : List.range 1 = [0] := rfl
  rw [h1, List.map_cons, List.map_nil, h]
  rfl

theorem matrixGet_levMatrix (a b : List α) :
    matrixGet (levMatrix a b b.length) b.length a.length = lev a.reverse b.reverse := by
  unfold levMatrix
  rw [matrixGet_append_left _ _ _ _ (by simp), getD_map_range _ _ _ _ (by omega),
    getD_map_range _ _ _ _ (by omega)]
  simp [levTable]

/-- The matrix computation of `getLevenshteinDistance` returns the value of the
recurrence on the two strings read backwards. -/
theorem getLevenshteinDistance_eq_lev (a b : List α) :
    getLevenshteinDistance a b = lev a.reverse b.reverse := by
  unfold getLevenshteinDistance
  by_cases ha : a.length = 0
  · have : a = [] := List.length_eq_zero.mp ha
    subst this
    simp [lev_nil_left]
  · by_cases hb : b.length = 0
    · have : b = [] := List.length_eq_zero.mp hb
      subst this
      simp only [if_neg ha, List.length_nil, if_true, List.reverse_nil, lev_nil_right,
        List.length_reverse]
    · simp only [if_neg ha, if_neg hb]
      rw [initRows_eq, List.range_eq_range', List.range'_succ, List.map_cons,
        initRowZero_eq]
      have h0 := levMatrix_zero a b
      simp only [Nat.zero_add] at h0 ⊢
      rw [← h0, levLoop_eq a b b.length le_rfl, matrixGet_levMatrix]

theorem getLevenshteinDistance_isLevenshteinDistance (a b : List α) :
    IsLevenshteinDistance a b (getLevenshteinDistance a b) := by
  rw [getLevenshteinDistance_eq_lev]
  exact lev_reverse_isLevenshteinDistance a b

end Matrix

section Distance
variable {α : Type} [DecidableEq α]

theorem isLevenshteinDistance_iff (a b : List α) (d : Nat) :
    IsLevenshteinDistance a b d ↔ getLevenshteinDistance a b = d :=
  ⟨fun h => isLevenshteinDistance_unique (getLevenshteinDistance_isLevenshteinDistance a b) h,
    fun h => h ▸ getLevenshteinDistance_isLevenshteinDistance a b⟩

theorem getLevenshteinDistance_comm_aux (a b : List α) :
    getLevenshteinDistance a b = getLevenshteinDistance b a := by
  rw [getLevenshteinDistance_eq_lev, getLevenshteinDistance_eq_lev, lev_comm]

/-- C1: for all strings `a` and `b`, `getLevenshteinDistance a b` is the
Levenshtein distance of `a` and `b`: some sequence of that many single-unit
insertions, deletions and substitutions transforms `a` into `b`, no shorter
sequence does, and it is the only number with these two properties; for an
empty `a` it is the length of `b` and for an empty `b` the length of `a`. -/
theorem getLevenshteinDistance_correct (a b : List α) :
    IsLevenshteinDistance a b (getLevenshteinDistance a b)
      ∧ (∀ d, IsLevenshteinDistance a b d → d = getLevenshteinDistance a b)
      ∧ getLevenshteinDistance ([] : List α) b = b.length
      ∧ getLevenshteinDistance a ([] : List α) = a.length := by
  refine ⟨getLevenshteinDistance_isLevenshteinDistance a b,
    fun d h => ((isLevenshteinDistance_iff a b d).mp h).symm, ?_, ?_⟩
  · simp [getLevenshteinDistance]
  · rw [getLevenshteinDistance_eq_lev]; simp [lev_nil_right]

/-- C8: the edit distance is symmetric: for all strings `a` and `b`,
`getLevenshteinDistance a b = getLevenshteinDistance b a`. -/
theorem getLevenshteinDistance_symmetric (a b : List α) :
    getLevenshteinDistance a b = getLevenshteinDistance b a :=
  getLevenshteinDistance_comm_aux a b

end Distance

set_option maxRecDepth 100000

section Verdict

/-- C5: for every integer score `s`, `finalizeVerdict` emits exactly one
verdict: DANGER if and only if `s ≥ 50`, WARNING if and only if
`20 ≤ s < 50`, UNKNOWN if and only if `s < 20`, and never SAFE; so 49 gives
WARNING, 50 gives DANGER, 19 gives UNKNOWN and 20 gives WARNING. -/
theorem finalizeVerdict_thresholds :
    (∀ (tabId : Nat) (s : Int) (report : List JSString),
      (verdicts (finalizeVerdict tabId s report) = [Status.DANGER] ↔ 50 ≤ s)
      ∧ (verdicts (finalizeVerdict tabId s report) = [Status.WARNING] ↔ 20 ≤ s ∧ s < 50)
      ∧ (verdicts (finalizeVerdict tabId s report) = [Status.UNKNOWN] ↔ s < 20)
      ∧ Status.SAFE ∉ verdicts (finalizeVerdict tabId s report)
      ∧ (Effect.updateIcon Status.DANGER tabId ∈ finalizeVerdict tabId s report ↔ 50 ≤ s)
      ∧ (Effect.updateIcon Status.WARNING tabId ∈ finalizeVerdict tabId s report
          ↔ 20 ≤ s ∧ s < 50)
      ∧ (Effect.updateIcon Status.UNKNOWN tabId ∈ finalizeVerdict tabId s report ↔ s < 20))
    ∧ (∀ (tabId : Nat) (report : List JSString),
      verdicts (finalizeVerdict tabId 49 report) = [Status.WARNING]
      ∧ verdicts (finalizeVerdict tabId 50 report) = [Status.DANGER]
      ∧ verdicts (finalizeVerdict tabId 19 report) = [Status.UNKNOWN]
      ∧ verdicts (finalizeVerdict tabId 20 report) = [Status.WARNING]) := by
  constructor
  · intro tabId s report
    unfold finalizeVerdict verdicts
    by_cases h50 : s ≥ 50
    · simp [h50]; omega
    · by_cases h20 : s ≥ 20
      · simp [h50, h20]; omega
      · simp [h50, h20]; omega
  · intro tabId report
    simp [finalizeVerdict, verdicts]

end Verdict

section Whitelist

theorem checkWhitelist_of_mem (trusted : List JSString) (domain : JSString)
    (h : domain ∈ trusted) :
    checkWhitelist trusted domain =
      { isSafe := true, score := 0, reason := some "Trusted Source".toList } := by
  simp [checkWhitelist, h]

theorem checkWhitelist_of_not_mem (trusted : List JSString) (domain : JSString)
    (h : domain ∉ trusted) :
    checkWhitelist trusted domain = { isSafe := false, score := 0, reason := none } := by
  simp [checkWhitelist, h]

/-- C2: whitelist short-circuit. For every trusted list and every URL whose
normalized host (one leading `www.` removed, then lowercased) is an element of
the list, `checkWhitelist` reports `isSafe` with score 0 and
`performSecurityCheck` does nothing but call `updateIcon("SAFE", tabId)`: no
page script is requested and `finalizeVerdict` is not called, whatever the URL
looks like and whatever the page-context collector would return. -/
theorem performSecurityCheck_whitelisted (trusted : List JSString) (tabId : Nat) (url : URL)
    (results : Option (List InjectionResult))
    (h : toLowerCase (stripWww url.hostname) ∈ trusted) :
    checkWhitelist trusted (toLowerCase (stripWww url.hostname)) =
        { isSafe := true, score := 0, reason := some "Trusted Source".toList }
      ∧ performSecurityCheck trusted tabId (some url) results =
        [Effect.updateIcon Status.SAFE tabId]
      ∧ verdicts (performSecurityCheck trusted tabId (some url) results) = [Status.SAFE] := by
  have hw := checkWhitelist_of_mem trusted _ h
  refine ⟨hw, ?_, ?_⟩ <;> simp [performSecurityCheck, hw, verdicts]

/-- Witness for C2: the URL `http://user@www.192.168.1.10.xyz/` with the
trusted list `["192.168.1.10.xyz"]`. -/
theorem performSecurityCheck_whitelisted_witness :
    toLowerCase (stripWww "www.192.168.1.10.xyz".toList) ∈ ["192.168.1.10.xyz".toList]
      ∧ performSecurityCheck ["192.168.1.10.xyz".toList] 7
          (some ⟨"www.192.168.1.10.xyz".toList, "user".toList, [],
            "http://user@www.192.168.1.10.xyz/".toList⟩) none =
        [Effect.updateIcon Status.SAFE 7] :=
  ⟨by decide,
    (performSecurityCheck_whitelisted ["192.168.1.10.xyz".toList] 7
      ⟨"www.192.168.1.10.xyz".toList, "user".toList, [],
        "http://user@www.192.168.1.10.xyz/".toList⟩ none (by decide)).2.1⟩

end Whitelist

section Impersonation

theorem editsTo_zero_eq {α : Type} {a b : List α} (h : EditsTo 0 a b) : a = b := by
  cases h; rfl

/-- One edit between two different strings puts them at distance exactly 1. -/
theorem isLevenshteinDistance_one {α : Type} {a b : List α} (hs : EditStep a b)
    (hne : a ≠ b) : IsLevenshteinDistance a b 1 := by
  refine ⟨EditsTo.step hs (EditsTo.done b), fun n h => ?_⟩
  cases n with
  | zero => exact absurd (editsTo_zero_eq h) hne
  | succ n => omega

theorem editStep_length {α : Type} {a b : List α} (h : EditStep a b) :
    a.length ≤ b.length + 1 := by
  cases h <;> simp <;> omega

/-- A string cannot be shortened by more units than there are edits. -/
theorem editsTo_length {α : Type} {n : Nat} {a b : List α} (h : EditsTo n a b) :
    a.length ≤ b.length + n := by
  induction h with
  | done a => simp
  | step hs _ ih => have := editStep_length hs; omega

theorem split_ne_nil (sep : Char) (s : JSString) : split sep s ≠ [] := by
  cases s with
  | nil => simp [split]
  | cons c cs =>
    rw [split]
    split
    · simp
    · split <;> simp

/-- The first label is the text before the first dot. -/
theorem firstLabel_eq_takeWhile (s : JSString) :
    firstLabel s = s.takeWhile (fun c => c ≠ '.') := by
  unfold firstLabel
  induction s with
  | nil => rfl
  | cons c cs ih =>
    by_cases hc : c = '.'
    · simp [split, hc]
    · rw [split, if_neg hc]
      cases hsp : split '.' cs with
      | nil => exact absurd hsp (split_ne_nil '.' cs)
      | cons l ls => rw [hsp] at ih; simp at ih; simp [List.takeWhile_cons, hc, ← ih]

/-- One pass of the loop of `checkImpersonation` over a brand that triggers no
rule leaves the state as it is. -/
theorem impersonationLoop_skip (domain : JSString) (brand : JSString)
    (rest : List JSString) (state : Int × List JSString)
    (h : brandTriggers domain brand = false) :
    impersonationLoop domain (firstLabel domain) (brand :: rest) state =
      impersonationLoop domain (firstLabel domain) rest state := by
  obtain ⟨score, reasons⟩ := state
  unfold brandTriggers at h
  rw [impersonationLoop]
  by_cases hlen : (firstLabel brand).length < 4
  · simp [hlen]
  · have h4 : 4 ≤ (firstLabel brand).length := by omega
    simp only [h4, decide_True, Bool.true_and, Bool.or_eq_false_iff, decide_eq_false_iff_not,
      Bool.and_eq_false_iff] at h
    obtain ⟨hd, hi⟩ := h
    have : (includes domain (firstLabel brand) && decide (domain ≠ brand)) = false := by
      rcases hi with hi | hi
      · simp [hi]
      · simp [hi]
    simp only [hlen, hd, this, if_false, Bool.false_eq_true]

/-- One pass of the loop over a brand that triggers a rule ends the loop: the
brands after it are not looked at. -/
theorem impersonationLoop_hit (domain : JSString) (brand : JSString)
    (rest : List JSString) (state : Int × List JSString)
    (h : brandTriggers domain brand = true) :
    impersonationLoop domain (firstLabel domain) (brand :: rest) state =
      impersonationLoop domain (firstLabel domain) [brand] state := by
  obtain ⟨score, reasons⟩ := state
  unfold brandTriggers at h
  simp only [Bool.and_eq_true, decide_eq_true_eq, Bool.or_eq_true] at h
  obtain ⟨h4, h⟩ := h
  have hlen : ¬ (firstLabel brand).length < 4 := by omega
  rw [impersonationLoop, impersonationLoop]
  simp only [hlen, if_false]
  by_cases hd : getLevenshteinDistance (firstLabel domain) (firstLabel brand) = 1
  · simp [hd]
  · rcases h with h | h
    · exact absurd h hd
    · have : (includes domain (firstLabel brand) && decide (domain ≠ brand)) = true := by
        simp [h.1, h.2]
      simp only [hd, this, if_false, if_true]

theorem impersonationLoop_find (domain : JSString) (trusted : List JSString)
    (state : Int × List JSString) :
    impersonationLoop domain (firstLabel domain) trusted state =
      match trusted.find? (brandTriggers domain) with
      | none => state
      | some brand => impersonationLoop domain (firstLabel domain) [brand] state := by
  induction trusted with
  | nil => simp [impersonationLoop]
  | cons brand rest ih =>
    cases h : brandTriggers domain brand with
    | true => rw [impersonationLoop_hit _ _ _ _ h]; simp [List.find?, h]
    | false => rw [impersonationLoop_skip _ _ _ _ h, ih]; simp [List.find?, h]

theorem checkImpersonation_find (trusted : List JSString) (domain : JSString) :
    checkImpersonation trusted domain =
      match trusted.find? (brandTriggers domain) with
      | none => { score := 0, reasons := [] }
      | some brand => checkImpersonation [brand] domain := by
  unfold checkImpersonation
  simp only
  rw [impersonationLoop_find]
  cases List.find? (brandTriggers domain) trusted <;> rfl

theorem checkImpersonation_single (brand domain : JSString) :
    checkImpersonation [brand] domain =
      if (firstLabel brand).length < 4 then { score := 0, reasons := [] }
      else if getLevenshteinDistance (firstLabel domain) (firstLabel brand) = 1 then
        { score := 80, reasons := [typosquatReason (firstLabel brand)] }
      else if includes domain (firstLabel brand) && domain ≠ brand then
        { score := 60, reasons := [embeddingReason (firstLabel brand)] }
      else { score := 0, reasons := [] } := by
  unfold checkImpersonation
  simp only [impersonationLoop]
  split
  · rfl
  · split
    · rfl
    · split <;> rfl

end Impersonation

section ImpersonationClaims

theorem infix_typosquatReason (name : JSString) : name <:+: typosquatReason name :=
  ⟨"Попытка имитации бренда ".toList, " (Тайпосквоттинг)".toList, rfl⟩

theorem infix_embeddingReason (name : JSString) : name <:+: embeddingReason name :=
  ⟨"Имя бренда ".toList, " в постороннем домене".toList, rfl⟩

/-- C3: typosquat detection. For a trusted list of one brand whose first label
has at least 4 units, and a host whose first label is at Levenshtein distance
exactly 1 from that label, `checkImpersonation` returns score 80 and exactly
one reason, the typosquatting reason, which contains the brand label. -/
theorem checkImpersonation_typosquat (brand host : JSString)
    (hlen : 4 ≤ (firstLabel brand).length)
    (hdist : IsLevenshteinDistance (firstLabel host) (firstLabel brand) 1) :
    checkImpersonation [brand] host =
        { score := 80, reasons := [typosquatReason (firstLabel brand)] }
      ∧ firstLabel brand <:+: typosquatReason (firstLabel brand) := by
  have hd := (isLevenshteinDistance_iff _ _ _).mp hdist
  have h4 : ¬ (firstLabel brand).length < 4 := by omega
  refine ⟨?_, infix_typosquatReason _⟩
  rw [checkImpersonation_single, if_neg h4, if_pos hd]

/-- Witness for C3: the host `sberbanlk.ru` against the trusted brand
`sberbank.ru` yields score 80 and a reason that mentions `sberbank`. -/
theorem checkImpersonation_typosquat_witness :
    (4 ≤ (firstLabel "sberbank.ru".toList).length
      ∧ IsLevenshteinDistance (firstLabel "sberbanlk.ru".toList)
          (firstLabel "sberbank.ru".toList) 1)
      ∧ checkImpersonation ["sberbank.ru".toList] "sberbanlk.ru".toList =
          { score := 80, reasons := [typosquatReason "sberbank".toList] }
      ∧ "sberbank".toList <:+: typosquatReason "sberbank".toList :=
  ⟨⟨by decide, (isLevenshteinDistance_iff _ _ _).mpr (by decide)⟩,
    checkImpersonation_typosquat "sberbank.ru".toList "sberbanlk.ru".toList (by decide)
      ((isLevenshteinDistance_iff _ _ _).mpr (by decide))⟩

/-- C4: combosquat detection. For a trusted list of one brand whose first label
has at least 4 units, and a host that contains that label, is not the brand's
full domain, and whose first label is not at Levenshtein distance exactly 1
from the label, `checkImpersonation` returns score 60, not 80, and exactly one
reason, the embedding reason, which contains the brand label. -/
theorem checkImpersonation_combosquat (brand host : JSString)
    (hlen : 4 ≤ (firstLabel brand).length)
    (hsub : firstLabel brand <:+: host)
    (hne : host ≠ brand)
    (hdist : ¬ IsLevenshteinDistance (firstLabel host) (firstLabel brand) 1) :
    checkImpersonation [brand] host =
        { score := 60, reasons := [embeddingReason (firstLabel brand)] }
      ∧ (checkImpersonation [brand] host).score ≠ 80
      ∧ firstLabel brand <:+: embeddingReason (firstLabel brand) := by
  have hd : ¬ getLevenshteinDistance (firstLabel host) (firstLabel brand) = 1 :=
    fun h => hdist ((isLevenshteinDistance_iff _ _ _).mpr h)
  have h4 : ¬ (firstLabel brand).length < 4 := by omega
  have hc : (includes host (firstLabel brand) && decide (host ≠ brand)) = true := by
    simp [includes, hsub, hne]
  have hres : checkImpersonation [brand] host =
      { score := 60, reasons := [embeddingReason (firstLabel brand)] } := by
    rw [checkImpersonation_single, if_neg h4, if_neg hd, if_pos hc]
  refine ⟨hres, ?_, infix_embeddingReason _⟩
  rw [hres]; simp

/-- Witness for C4: the host `sberbank-bonus.ru` against the trusted brand
`sberbank.ru` yields score 60 with the embedding reason. -/
theorem checkImpersonation_combosquat_witness :
    (4 ≤ (firstLabel "sberbank.ru".toList).length
      ∧ firstLabel "sberbank.ru".toList <:+: "sberbank-bonus.ru".toList
      ∧ "sberbank-bonus.ru".toList ≠ "sberbank.ru".toList
      ∧ ¬ IsLevenshteinDistance (firstLabel "sberbank-bonus.ru".toList)
          (firstLabel "sberbank.ru".toList) 1)
      ∧ checkImpersonation ["sberbank.ru".toList] "sberbank-bonus.ru".toList =
          { score := 60, reasons := [embeddingReason "sberbank".toList] }
      ∧ (checkImpersonation ["sberbank.ru".toList] "sberbank-bonus.ru".toList).score ≠ 80
      ∧ "sberbank".toList <:+: embeddingReason "sberbank".toList :=
  ⟨⟨by decide, by decide, by decide,
      fun h => absurd ((isLevenshteinDistance_iff _ _ _).mp h) (by decide)⟩,
    checkImpersonation_combosquat "sberbank.ru".toList "sberbank-bonus.ru".toList
      (by decide) (by decide) (by decide)
      (fun h => absurd ((isLevenshteinDistance_iff _ _ _).mp h) (by decide))⟩

/-- C9: first match wins in `checkImpersonation`. For every host and every
trusted list the score is 0, 60 or 80 and there is at most one reason; the
result is the result of checking the host against only the first brand, in
list order, that triggers the typosquat or the embedding rule, and it is score
0 with no reason when no brand triggers; so the brands after the first
triggering one never change the result. -/
theorem checkImpersonation_first_match (trusted : List JSString) (host : JSString) :
    ((checkImpersonation trusted host).score = 0
        ∨ (checkImpersonation trusted host).score = 60
        ∨ (checkImpersonation trusted host).score = 80)
      ∧ (checkImpersonation trusted host).reasons.length ≤ 1
      ∧ checkImpersonation trusted host =
          (match trusted.find? (brandTriggers host) with
           | none => { score := 0, reasons := [] }
           | some brand => checkImpersonation [brand] host)
      ∧ (∀ (before after : List JSString) (brand : JSString),
          trusted = before ++ brand :: after →
          (∀ b ∈ before, brandTriggers host b = false) →
          brandTriggers host brand = true →
          checkImpersonation trusted host = checkImpersonation [brand] host) := by
  have hfind := checkImpersonation_find trusted host
  refine ⟨?_, ?_, hfind, ?_⟩
  · rw [hfind]
    cases trusted.find? (brandTriggers host) with
    | none => simp
    | some brand =>
      simp only [checkImpersonation_single]
      split
      · simp
      · split
        · simp
        · split <;> simp
  · rw [hfind]
    cases trusted.find? (brandTriggers host) with
    | none => simp
    | some brand =>
      simp only [checkImpersonation_single]
      split
      · simp
      · split
        · simp
        · split <;> simp
  · intro before after brand htr hbefore hbrand
    have hf : trusted.find? (brandTriggers host) = some brand := by
      rw [htr, List.find?_append]
      have : before.find? (brandTriggers host) = none := by
        rw [List.find?_eq_none]
        intro b hb; simp [hbefore b hb]
      simp [this, List.find?, hbrand]
    rw [hfind, hf]

/-- Witness for C9: the host `sberbank-bonus.ru` with the trusted list
`vk.com`, `sberbank.ru`, `sberbank-bonu.ru`. The second brand triggers the
embedding rule, so the result is score 60, although the third brand alone
would give 80. -/
theorem checkImpersonation_first_match_witness :
    checkImpersonation
        ["vk.com".toList, "sberbank.ru".toList, "sberbank-bonu.ru".toList]
        "sberbank-bonus.ru".toList =
      checkImpersonation ["sberbank.ru".toList] "sberbank-bonus.ru".toList
    ∧ (checkImpersonation ["sberbank.ru".toList] "sberbank-bonus.ru".toList).score = 60
    ∧ (checkImpersonation ["sberbank-bonu.ru".toList] "sberbank-bonus.ru".toList).score = 80 :=
  ⟨(checkImpersonation_first_match
      ["vk.com".toList, "sberbank.ru".toList, "sberbank-bonu.ru".toList]
      "sberbank-bonus.ru".toList).2.2.2 ["vk.com".toList] ["sberbank-bonu.ru".toList]
      "sberbank.ru".toList rfl (by decide) (by decide),
    by decide, by decide⟩

end ImpersonationClaims

section Pipeline

theorem pageContextCallback_usable (tabId : Nat) (totalScore : Int) (report : List JSString)
    (results : Option (List InjectionResult)) (dom : DomResult)
    (h : usableResult results = some dom) :
    pageContextCallback tabId totalScore report results =
      finalizeVerdict tabId (totalScore + (if dom.hasPasswordInput then 20 else 0))
        (report ++ (if dom.hasPasswordInput then [passwordReason] else [])) := by
  unfold pageContextCallback
  match results, h with
  | some (first :: _), h =>
    simp only [usableResult] at h
    simp only [h]
    cases dom.hasPasswordInput <;> simp

theorem pageContextCallback_unusable (tabId : Nat) (totalScore : Int) (report : List JSString)
    (results : Option (List InjectionResult)) (h : usableResult results = none) :
    pageContextCallback tabId totalScore report results = [] := by
  unfold pageContextCallback
  match results, h with
  | none, _ => rfl
  | some [], _ => rfl
  | some (first :: _), h =>
    simp only [usableResult] at h
    simp only [h]

theorem performSecurityCheck_not_whitelisted (trusted : List JSString) (tabId : Nat)
    (url : URL) (results : Option (List InjectionResult))
    (h : toLowerCase (stripWww url.hostname) ∉ trusted) :
    performSecurityCheck trusted tabId (some url) results =
      Effect.executeScript tabId Script.analyzePageContentDOM ::
        pageContextCallback tabId
          ((checkUrlSyntax url (toLowerCase (stripWww url.hostname))).score
            + (checkImpersonation trusted (toLowerCase (stripWww url.hostname))).score)
          ((checkUrlSyntax url (toLowerCase (stripWww url.hostname))).reasons
            ++ (checkImpersonation trusted (toLowerCase (stripWww url.hostname))).reasons)
          results := by
  have hw := checkWhitelist_of_not_mem trusted _ h
  simp [performSecurityCheck, hw]

/-- C10: score aggregation. For every URL whose normalized host is not in the
trusted list and every usable page-context result with password-input flag
`p`, `performSecurityCheck` requests the page script and then calls
`finalizeVerdict` with a total score equal to the syntax score plus the
impersonation score plus 20 if `p` holds, and with the syntax reasons, then the
impersonation reasons, then the password reason if `p` holds. -/
theorem performSecurityCheck_aggregates (trusted : List JSString) (tabId : Nat) (url : URL)
    (results : Option (List InjectionResult)) (dom : DomResult)
    (hnot : toLowerCase (stripWww url.hostname) ∉ trusted)
    (hres : usableResult results = some dom) :
    performSecurityCheck trusted tabId (some url) results =
      Effect.executeScript tabId Script.analyzePageContentDOM ::
        finalizeVerdict tabId
          ((checkUrlSyntax url (toLowerCase (stripWww url.hostname))).score
            + (checkImpersonation trusted (toLowerCase (stripWww url.hostname))).score
            + (if dom.hasPasswordInput then 20 else 0))
          ((checkUrlSyntax url (toLowerCase (stripWww url.hostname))).reasons
            ++ (checkImpersonation trusted (toLowerCase (stripWww url.hostname))).reasons
            ++ (if dom.hasPasswordInput then [passwordReason] else [])) := by
  rw [performSecurityCheck_not_whitelisted trusted tabId url results hnot,
    pageContextCallback_usable _ _ _ _ dom hres]

/-- Witness for C10: the URL `http://sberbank-bonus.top/` with the trusted list
`["sberbank.ru"]` and a page that has a password input: the total is
15 + 60 + 20. -/
theorem performSecurityCheck_aggregates_witness :
    (toLowerCase (stripWww "sberbank-bonus.top".toList) ∉ ["sberbank.ru".toList]
      ∧ usableResult (some [⟨some ⟨true, "Bonus".toList⟩⟩]) = some ⟨true, "Bonus".toList⟩)
    ∧ performSecurityCheck ["sberbank.ru".toList] 7
        (some ⟨"sberbank-bonus.top".toList, [], [], "http://sberbank-bonus.top/".toList⟩)
        (some [⟨some ⟨true, "Bonus".toList⟩⟩]) =
      Effect.executeScript 7 Script.analyzePageContentDOM ::
        finalizeVerdict 7 (15 + 60 + 20)
          (["Подозрительная доменная зона".toList] ++ [embeddingReason "sberbank".toList]
            ++ [passwordReason]) :=
  ⟨⟨by decide, rfl⟩,
    performSecurityCheck_aggregates ["sberbank.ru".toList] 7
      ⟨"sberbank-bonus.top".toList, [], [], "http://sberbank-bonus.top/".toList⟩
      (some [⟨some ⟨true, "Bonus".toList⟩⟩]) ⟨true, "Bonus".toList⟩ (by decide) rfl⟩

/-- C7, as the claim states it, fails: for the URL `http://sberbanlk.ru/` with
the trusted list `["sberbank.ru"]` the host is not trusted and the callback
receives `undefined`; the thresholds assign DANGER to the sum of the syntax and
impersonation scores (80), yet `performSecurityCheck` emits no verdict at
all. -/
theorem performSecurityCheck_no_fallback_counterexample :
    toLowerCase (stripWww "sberbanlk.ru".toList) ∉ ["sberbank.ru".toList]
    ∧ usableResult none = none
    ∧ (checkUrlSyntax ⟨"sberbanlk.ru".toList, [], [], "http://sberbanlk.ru/".toList⟩
          "sberbanlk.ru".toList).score
        + (checkImpersonation ["sberbank.ru".toList] "sberbanlk.ru".toList).score = 80
    ∧ verdicts (finalizeVerdict 7 80 [typosquatReason "sberbank".toList]) = [Status.DANGER]
    ∧ performSecurityCheck ["sberbank.ru".toList] 7
        (some ⟨"sberbanlk.ru".toList, [], [], "http://sberbanlk.ru/".toList⟩) none =
      [Effect.executeScript 7 Script.analyzePageContentDOM]
    ∧ verdicts (performSecurityCheck ["sberbank.ru".toList] 7
        (some ⟨"sberbanlk.ru".toList, [], [], "http://sberbanlk.ru/".toList⟩) none) = [] := by
  refine ⟨by decide, rfl, by decide, by decide, by decide, by decide⟩

/-- C7, amended: for every URL whose normalized host is not in the trusted list,
when the callback of `executeScript` receives no usable result,
`performSecurityCheck` requests the page script and emits no verdict:
`finalizeVerdict` and `updateIcon` are not called. The verdict that the
thresholds assign to the sum of the syntax score and the impersonation score
is emitted when the callback receives a usable result without a password
input. -/
theorem performSecurityCheck_page_context_guard (trusted : List JSString) (tabId : Nat)
    (url : URL) (hnot : toLowerCase (stripWww url.hostname) ∉ trusted) :
    (∀ results, usableResult results = none →
      performSecurityCheck trusted tabId (some url) results =
          [Effect.executeScript tabId Script.analyzePageContentDOM]
        ∧ verdicts (performSecurityCheck trusted tabId (some url) results) = [])
    ∧ (∀ results dom, usableResult results = some dom → dom.hasPasswordInput = false →
      performSecurityCheck trusted tabId (some url) results =
        Effect.executeScript tabId Script.analyzePageContentDOM ::
          finalizeVerdict tabId
            ((checkUrlSyntax url (toLowerCase (stripWww url.hostname))).score
              + (checkImpersonation trusted (toLowerCase (stripWww url.hostname))).score)
            ((checkUrlSyntax url (toLowerCase (stripWww url.hostname))).reasons
              ++ (checkImpersonation trusted
                    (toLowerCase (stripWww url.hostname))).reasons)) := by
  constructor
  · intro results hres
    have h : performSecurityCheck trusted tabId (some url) results =
        [Effect.executeScript tabId Script.analyzePageContentDOM] := by
      rw [performSecurityCheck_not_whitelisted trusted tabId url results hnot,
        pageContextCallback_unusable _ _ _ _ hres]
    exact ⟨h, by rw [h]; rfl⟩
  · intro results dom hres hp
    rw [performSecurityCheck_not_whitelisted trusted tabId url results hnot,
      pageContextCallback_usable _ _ _ _ dom hres, hp]
    simp

/-- Witness for the amended C7: the URL `http://sberbanlk.ru/` with the trusted
list `["sberbank.ru"]`. -/
theorem performSecurityCheck_page_context_guard_witness :
    toLowerCase (stripWww "sberbanlk.ru".toList) ∉ ["sberbank.ru".toList]
    ∧ verdicts (performSecurityCheck ["sberbank.ru".toList] 7
        (some ⟨"sberbanlk.ru".toList, [], [], "http://sberbanlk.ru/".toList⟩)
        (some [])) = [] :=
  ⟨by decide,
    ((performSecurityCheck_page_context_guard ["sberbank.ru".toList] 7
      ⟨"sberbanlk.ru".toList, [], [], "http://sberbanlk.ru/".toList⟩ (by decide)).1
        (some []) rfl).2⟩

end Pipeline

section UrlRules

theorem mem_matchEnds_digit (cs rest : JSString) :
    rest ∈ Regex.matchEnds Regex.digit cs ↔ ∃ c, c.isDigit = true ∧ cs = c :: rest := by
  cases cs with
  | nil => simp [Regex.matchEnds]
  | cons c cs =>
    simp only [Regex.matchEnds]
    by_cases hc : c.isDigit = true
    · simp only [hc, if_true, List.mem_singleton, List.cons.injEq]
      constructor
      · rintro rfl; exact ⟨c, hc, rfl, rfl⟩
      · rintro ⟨d, _, _, h⟩; exact h.symm
    · simp only [hc, Bool.false_eq_true, if_false, List.not_mem_nil, false_iff]
      rintro ⟨d, hd, h⟩
      simp only [List.cons.injEq] at h
      exact hc (h.1 ▸ hd)

theorem mem_matchEnds_unit (d : Char) (cs rest : JSString) :
    rest ∈ Regex.matchEnds (Regex.unit d) cs ↔ cs = d :: rest := by
  cases cs with
  | nil => simp [Regex.matchEnds]
  | cons c cs =>
    simp only [Regex.matchEnds]
    by_cases hc : c = d
    · simp only [hc, if_true, List.mem_singleton, List.cons.injEq, true_and]
      exact eq_comm
    · simp only [hc, if_false, List.not_mem_nil, List.cons.injEq, false_and]

/-- The quantifier `\d{lo,hi}` consumes a run of between `lo` and `hi`
digits. -/
theorem mem_matchTimes_digit (hi : Nat) : ∀ (lo : Nat) (cs rest : JSString),
    rest ∈ matchTimes (fun r => Regex.matchEnds Regex.digit r) lo hi cs ↔
      ∃ g, cs = g ++ rest ∧ lo ≤ g.length ∧ g.length ≤ hi ∧ ∀ c ∈ g, c.isDigit = true := by
  induction hi with
  | zero =>
    intro lo cs rest
    simp only [matchTimes]
    constructor
    · intro h
      by_cases hlo : lo = 0
      · simp only [hlo, if_true, List.mem_singleton] at h
        exact ⟨[], by simp [h], by omega, by simp, by simp⟩
      · simp [hlo] at h
    · rintro ⟨g, hcs, hlo, hhi, -⟩
      have hg : g = [] := List.length_eq_zero.mp (by omega)
      subst hg
      have : lo = 0 := by simpa using hlo
      simp [this, hcs]
  | succ hi ih =>
    intro lo cs rest
    simp only [matchTimes, List.mem_append, List.mem_flatMap, mem_matchEnds_digit, ih]
    constructor
    · rintro (⟨mid, ⟨c, hc, hcs⟩, g, hmid, hlo, hhi, hall⟩ | h)
      · refine ⟨c :: g, by simp [hcs, hmid], by simp; omega, by simp; omega, ?_⟩
        intro x hx
        rcases List.mem_cons.mp hx with rfl | hx
        · exact hc
        · exact hall x hx
      · by_cases hlo : lo = 0
        · simp only [hlo, if_true, List.mem_singleton] at h
          exact ⟨[], by simp [h], by omega, by simp, by simp⟩
        · simp [hlo] at h
    · rintro ⟨g, hcs, hlo, hhi, hall⟩
      cases g with
      | nil =>
        right
        have : lo = 0 := by simpa using hlo
        simp [this, hcs]
      | cons c g =>
        left
        refine ⟨g ++ rest, ⟨c, hall c (List.mem_cons_self _ _), by simp [hcs]⟩, g, rfl, ?_, ?_, ?_⟩
        · simp at hlo; omega
        · simp at hhi; omega
        · intro x hx; exact hall x (List.mem_cons_of_mem _ hx)

theorem mem_matchEnds_group (cs rest : JSString) :
    rest ∈ Regex.matchEnds (Regex.times Regex.digit 1 3) cs ↔
      ∃ g, IsDigitGroup g ∧ cs = g ++ rest := by
  simp only [Regex.matchEnds, mem_matchTimes_digit, IsDigitGroup]
  constructor
  · rintro ⟨g, hcs, h1, h3, hall⟩; exact ⟨g, ⟨h1, h3, hall⟩, hcs⟩
  · rintro ⟨g, ⟨h1, h3, hall⟩, hcs⟩; exact ⟨g, hcs, h1, h3, hall⟩

theorem mem_matchEnds_seq (r s : Regex) (cs rest : JSString) :
    rest ∈ Regex.matchEnds (Regex.seq r s) cs ↔
      ∃ mid, mid ∈ Regex.matchEnds r cs ∧ rest ∈ Regex.matchEnds s mid := by
  simp only [Regex.matchEnds, List.mem_flatMap]

theorem testAnchored_iff (r : Regex) (s : JSString) :
    r.testAnchored s = true ↔ [] ∈ Regex.matchEnds r s := by
  simp only [Regex.testAnchored, List.any_eq_true, List.isEmpty_iff]
  constructor
  · rintro ⟨rest, h, rfl⟩; exact h
  · intro h; exact ⟨[], h, rfl⟩

/-- The anchored pattern of `checkUrlSyntax` accepts exactly the dotted
quads. -/
theorem ipPattern_iff (s : JSString) :
    ipPattern.testAnchored s = true ↔ IsDottedQuad s := by
  rw [testAnchored_iff]
  unfold ipPattern IsDottedQuad
  simp only [mem_matchEnds_seq, mem_matchEnds_group, mem_matchEnds_unit]
  constructor
  · rintro ⟨r₁, ⟨g₁, h₁, rfl⟩, r₂, rfl, r₃, ⟨g₂, h₂, rfl⟩, r₄, rfl, r₅, ⟨g₃, h₃, rfl⟩,
      r₆, rfl, g₄, h₄, rfl⟩
    exact ⟨g₁, g₂, g₃, g₄, h₁, h₂, h₃, h₄, by simp⟩
  · rintro ⟨g₁, g₂, g₃, g₄, h₁, h₂, h₃, h₄, rfl⟩
    exact ⟨_, ⟨g₁, h₁, rfl⟩, _, rfl, _, ⟨g₂, h₂, rfl⟩, _, rfl, _, ⟨g₃, h₃, rfl⟩, _, rfl,
      g₄, h₄, by simp⟩

/-- The number of labels is the number of dots plus one. -/
theorem length_split (sep : Char) (s : JSString) :
    (split sep s).length = s.count sep + 1 := by
  induction s with
  | nil => rfl
  | cons c cs ih =>
    rw [split]
    by_cases hc : c = sep
    · subst hc; simp [ih]
    · have hcount : (c :: cs).count sep = cs.count sep := by
        rw [List.count_cons]; simp [hc]
      rw [if_neg hc, hcount, ← ih]
      cases hsp : split sep cs with
      | nil => exact absurd hsp (split_ne_nil sep cs)
      | cons l ls => rfl

theorem includes_iff (s t : JSString) : includes s t = true ↔ t <:+: s := by
  simp [includes]

theorem includes_unit_iff (s : JSString) (c : Char) : includes s [c] = true ↔ c ∈ s := by
  rw [includes_iff]
  constructor
  · rintro ⟨p, q, rfl⟩; simp
  · intro h
    obtain ⟨p, q, rfl⟩ := List.append_of_mem h
    exact ⟨p, q, by simp⟩

theorem endsWith_iff (s t : JSString) : endsWith s t = true ↔ t <:+ s := by
  simp [endsWith]

theorem truthy_iff (s : JSString) : truthy s = true ↔ s ≠ [] := by
  cases s <;> simp [truthy]

end UrlRules

section UrlClaims

/-- C6: for every URL and host, `checkUrlSyntax` returns the sum of the weights
of exactly the rules that fire and one reason per fired rule, in rule order.
The rules: the host is four dot-separated groups of 1 to 3 decimal digits
(50); the URL has a username, a password or an `@` anywhere in its address
(40); the host splits on `.` into more than 4 labels, the number of labels
being the number of dots plus one (20); the host ends in `.xyz`, `.tk` or
`.top` (15). -/
theorem checkUrlSyntax_rules (urlObj : URL) (domain : JSString) :
    ∃ ip userinfo depth zone : Bool,
      (ip = true ↔ IsDottedQuad domain)
      ∧ (userinfo = true ↔
          urlObj.username ≠ [] ∨ urlObj.password ≠ [] ∨ '@' ∈ urlObj.href)
      ∧ (depth = true ↔ 4 < (split '.' domain).length)
      ∧ (split '.' domain).length = domain.count '.' + 1
      ∧ (zone = true ↔
          ".xyz".toList <:+ domain ∨ ".tk".toList <:+ domain ∨ ".top".toList <:+ domain)
      ∧ (checkUrlSyntax urlObj domain).score =
          ruleScore ip 50 + ruleScore userinfo 40 + ruleScore depth 20 + ruleScore zone 15
      ∧ (checkUrlSyntax urlObj domain).reasons =
          ruleReasons ip "Используется IP вместо домена".toList
            ++ ruleReasons userinfo "Подозрительный символ @ в адресе".toList
            ++ ruleReasons depth "Слишком много поддоменов".toList
            ++ ruleReasons zone "Подозрительная доменная зона".toList := by
  refine ⟨ipPattern.testAnchored domain,
    truthy urlObj.username || truthy urlObj.password || includes urlObj.href ['@'],
    decide (4 < (split '.' domain).length),
    endsWith domain ".xyz".toList || endsWith domain ".tk".toList
      || endsWith domain ".top".toList,
    ipPattern_iff domain, ?_, by simp, length_split '.' domain, ?_, ?_, ?_⟩
  · simp only [Bool.or_eq_true, truthy_iff, includes_unit_iff, or_assoc]
  · simp only [Bool.or_eq_true, endsWith_iff, or_assoc]
  · unfold checkUrlSyntax
    cases ipPattern.testAnchored domain
      <;> cases (truthy urlObj.username || truthy urlObj.password
        || includes urlObj.href ['@'])
      <;> by_cases h3 : (split '.' domain).length > 4
      <;> cases (endsWith domain ".xyz".toList || endsWith domain ".tk".toList
        || endsWith domain ".top".toList)
      <;> simp [ruleScore, h3]
  · unfold checkUrlSyntax
    cases ipPattern.testAnchored domain
      <;> cases (truthy urlObj.username || truthy urlObj.password
        || includes urlObj.href ['@'])
      <;> by_cases h3 : (split '.' domain).length > 4
      <;> cases (endsWith domain ".xyz".toList || endsWith domain ".tk".toList
        || endsWith domain ".top".toList)
      <;> simp [ruleReasons, h3]

end UrlClaims

section Examples

/-- The examples of the specification for the edit distance. -/
theorem getLevenshteinDistance_examples :
    getLevenshteinDistance "sberbanlk".toList "sberbank".toList = 1
    ∧ getLevenshteinDistance "kitten".toList "sitting".toList = 3
    ∧ getLevenshteinDistance "".toList "yandex".toList = 6
    ∧ getLevenshteinDistance "google".toList "google".toList = 0 := by
  decide

/-- The IP-literal host `192.168.1.10` scores 50 with the IP-address reason;
it has four labels, so the subdomain rule does not fire. -/
theorem checkUrlSyntax_ip_example :
    checkUrlSyntax ⟨"192.168.1.10".toList, [], [], "http://192.168.1.10/".toList⟩
        "192.168.1.10".toList =
      { score := 50, reasons := ["Используется IP вместо домена".toList] } := by
  decide

/-- A host with five labels triggers the subdomain rule and a host with four
labels does not; the host `a.b.c.d.example.com` has six labels. -/
theorem checkUrlSyntax_depth_examples :
    (checkUrlSyntax ⟨"a.b.c.example.com".toList, [], [], "http://a.b.c.example.com/".toList⟩
        "a.b.c.example.com".toList).score = 20
    ∧ (checkUrlSyntax ⟨"a.b.example.com".toList, [], [], "http://a.b.example.com/".toList⟩
        "a.b.example.com".toList).score = 0
    ∧ (split '.' "a.b.c.d.example.com".toList).length = 6 := by
  decide

end Examples

end FishingTL
